import Mathlib

/-!
Verification of the calendar-analyzer pipeline (src/calendar_analyzer.py).

The development shallowly embeds the data model and the operations of the
analyzer: timezone normalization (convert_to_pacific), the two reader and
aggregation paths (analyze_calendar over parsed ICS events and
analyze_sqlite_calendar over database rows), calendar-file auto-discovery
(get_calendar_path), and the report formatter (generate_summary).

Conventions of the embedding:
- Python datetimes are modelled at one-second resolution.  A naive datetime
  carries only a civil clock value (encoded as seconds on a linear proleptic
  scale); an aware datetime carries an absolute instant (seconds since
  1970-01-01T00:00:00 UTC) together with a zone tag.  Comparisons and
  subtraction of aware datetimes act on the instants, as in Python.
- Python floats are modelled as rationals.
- The rules of the America/Los_Angeles zone are modelled from the tz
  database that the source obtains through dateutil (post-2007 United
  States daylight-saving rules): daylight time runs from the second Sunday
  of March at 10:00 UTC to the first Sunday of November at 09:00 UTC.
-/

namespace CalendarAnalyzer

/-- Civil date as year, month and day of the proleptic Gregorian calendar. -/
structure CivilDate where
  year : Int
  month : Int
  day : Int
deriving DecidableEq, Repr

/-- Days since 1970-01-01 of the civil date y-m-d.  Standard
days-from-civil arithmetic; all divisions are Euclidean. -/
def daysFromCivil (y m d : Int) : Int :=
  let y2 := y - (if m ≤ 2 then 1 else 0)
  let era := Int.ediv y2 400
  let yoe := y2 - era * 400
  let mp := Int.emod (m + 9) 12
  let doy := Int.ediv (153 * mp + 2) 5 + d - 1
  let doe := yoe * 365 + Int.ediv yoe 4 - Int.ediv yoe 100 + doy
  era * 146097 + doe - 719468

/-- Civil date of a count of days since 1970-01-01 (inverse of
daysFromCivil). -/
def civilFromDays (z0 : Int) : CivilDate :=
  let z := z0 + 719468
  let era := Int.ediv z 146097
  let doe := z - era * 146097
  let yoe := Int.ediv (doe - Int.ediv doe 1460 + Int.ediv doe 36524 - Int.ediv doe 146096) 365
  let y := yoe + era * 400
  let doy := doe - (365 * yoe + Int.ediv yoe 4 - Int.ediv yoe 100)
  let mp := Int.ediv (5 * doy + 2) 153
  let d := doy - Int.ediv (153 * mp + 2) 5 + 1
  let m := mp + (if mp < 10 then 3 else -9)
  ⟨y + (if m ≤ 2 then 1 else 0), m, d⟩

/-- Day of the week of an epoch day count, with 0 = Sunday (1970-01-01 was
a Thursday, hence the shift by 4). -/
def dayOfWeek (d : Int) : Int := Int.emod (d + 4) 7

/-- First Sunday on or after a given epoch day. -/
def firstSundayOnOrAfter (d : Int) : Int := d + Int.emod (7 - dayOfWeek d) 7

/-- Epoch day of the second Sunday of March of a year. -/
def secondSundayOfMarch (y : Int) : Int :=
  firstSundayOnOrAfter (daysFromCivil y 3 1) + 7

/-- Epoch day of the first Sunday of November of a year. -/
def firstSundayOfNovember (y : Int) : Int :=
  firstSundayOnOrAfter (daysFromCivil y 11 1)

/-- Instant (seconds since the Unix epoch, UTC) at which daylight time
starts in a given year for America/Los_Angeles: second Sunday of March at
02:00 standard time, which is 10:00 UTC. -/
def dstStartInstant (y : Int) : Int := 86400 * secondSundayOfMarch y + 10 * 3600

/-- Instant at which daylight time ends in a given year for
America/Los_Angeles: first Sunday of November at 02:00 daylight time,
which is 09:00 UTC. -/
def dstEndInstant (y : Int) : Int := 86400 * firstSundayOfNovember y + 9 * 3600

/-- Whether daylight-saving time is in force at an instant in the
America/Los_Angeles zone.  The year is read off the UTC civil date of the
instant; both transitions are months away from the year boundary, so this
agrees with the zone database. -/
def isPacificDST (i : Int) : Bool :=
  let y := (civilFromDays (Int.ediv i 86400)).year
  decide (dstStartInstant y ≤ i ∧ i < dstEndInstant y)

/-- UTC offset, in seconds, of the America/Los_Angeles zone at an instant:
-7 hours during daylight time, -8 hours during standard time. -/
def pacificOffsetSec (i : Int) : Int :=
  if isPacificDST i then -25200 else -28800

/-- Zone tag carried by an aware datetime.  The source defines exactly the
two zone constants PACIFIC and UTC. -/
inductive Zone
  | utc
  | pacific
deriving DecidableEq, Repr

/-- UTC offset of a zone, in seconds, at a given instant. -/
def zoneOffsetSec : Zone → Int → Int
  | .utc, _ => 0
  | .pacific, i => pacificOffsetSec i

/-- A Python datetime: either naive (a bare civil clock value, encoded as
seconds on a linear proleptic scale) or aware (an absolute instant in
seconds since the Unix epoch together with a zone tag). -/
inductive PyDateTime
  | naive (clockSec : Int)
  | aware (instantSec : Int) (zone : Zone)
deriving DecidableEq, Repr

/-- Embeds convert_to_pacific (src/calendar_analyzer.py lines 23-28): a
naive datetime is first given tzinfo UTC, so its clock value becomes its
instant; then astimezone converts to the Pacific zone, preserving the
instant. -/
def convert_to_pacific : PyDateTime → PyDateTime
  | .naive clockSec => .aware clockSec .pacific
  | .aware i _ => .aware i .pacific

/-- Absolute instant denoted by a datetime, when it denotes one: an aware
datetime denotes its instant, a naive datetime denotes no instant. -/
def pyInstant : PyDateTime → Option Int
  | .naive _ => none
  | .aware i _ => some i

/-- Instant value used when Python compares or subtracts aware datetimes.
On a naive datetime this returns the clock value; the analyzer only
applies it to aware datetimes (results of convert_to_pacific). -/
def instantVal : PyDateTime → Int
  | .naive clockSec => clockSec
  | .aware i _ => i

/-- Local civil clock displayed by a datetime, as seconds on the linear
proleptic scale: an aware datetime displays its instant shifted by the
offset of its zone, a naive datetime displays its bare clock value. -/
def localClockSec : PyDateTime → Int
  | .naive clockSec => clockSec
  | .aware i z => i + zoneOffsetSec z i

/-- The date() accessor: civil day of the displayed clock, as an epoch day
count. -/
def pyDate (dt : PyDateTime) : Int := Int.ediv (localClockSec dt) 86400

/-- The time() accessor: displayed time of day in seconds. -/
def pyTimeOfDay (dt : PyDateTime) : Int := Int.emod (localClockSec dt) 86400

/-- The hour attribute of a datetime. -/
def localHour (dt : PyDateTime) : Int := Int.ediv (pyTimeOfDay dt) 3600

/-- Parsed value of the DURATION property of an ICS event: either a value
the parsing library materialized as a timedelta (an exact interval, held
here in seconds) or a value of some other type (for instance an
unparsable duration kept as text), which the analyzer treats like a
missing interval. -/
inductive DurationProp
  | timedelta (seconds : ℚ)
  | nonTimedelta
deriving DecidableEq, Repr

/-- DTSTART value of an ICS event: either a bare date, as carried by
all-day events, or a datetime. -/
inductive DTStartValue
  | dateOnly (epochDay : Int)
  | dateTime (dt : PyDateTime)
deriving DecidableEq, Repr

/-- A parsed VEVENT component, restricted to the properties the analyzer
reads.  The dtend property is carried by the record but never read by the
analyzer. -/
structure VEvent where
  dtstart : DTStartValue
  dtend : Option PyDateTime
  summary : Option String
  duration : Option DurationProp
deriving DecidableEq, Repr

/-- The aggregate counters, a defaultdict over the two keys the code
touches; both entries read as zero before the first update. -/
structure Stats where
  total_meetings : Nat
  total_hours : ℚ
deriving DecidableEq, Repr

/-- Date window of one analysis run: the instants of the aware start_date
and end_date bounds. -/
structure Window where
  startI : Int
  endI : Int
deriving DecidableEq, Repr

/-- A meeting record as appended by either reader path: Pacific civil date
(epoch day), Pacific time of day (seconds), display title, and duration in
hours. -/
structure Meeting where
  date : Int
  time : Int
  summary : String
  duration_hours : ℚ
deriving DecidableEq, Repr

/-- duration_hours computed for one ICS event (lines 156-160 of the
source): the default for an absent DURATION property is timedelta(hours=1)
whose total_seconds value divided by 3600 is written out below; an
explicit timedelta contributes its exact seconds divided by 3600; a
present but non-timedelta value falls back to 1. -/
def eventDurationHours (event : VEvent) : ℚ :=
  match event.duration with
  | none => 3600 / 3600
  | some (.timedelta seconds) => seconds / 3600
  | some .nonTimedelta => 1

/-- One iteration of the event loop of analyze_calendar (lines 149-171):
skip events whose DTSTART is not a datetime; normalize the start to
Pacific time; keep it only when it lies in the inclusive window; the title
falls back to the fixed placeholder when absent; append the meeting record
and bump both counters. -/
def ics_step (win : Window) (acc : List Meeting × Stats) (event : VEvent) :
    List Meeting × Stats :=
  match event.dtstart with
  | .dateOnly _ => acc
  | .dateTime dtv =>
    let start := convert_to_pacific dtv
    if win.startI ≤ instantVal start ∧ instantVal start ≤ win.endI then
      let s := event.summary.getD "No Title"
      let d := eventDurationHours event
      let m : Meeting := ⟨pyDate start, pyTimeOfDay start, s, d⟩
      (acc.1 ++ [m], ⟨acc.2.total_meetings + 1, acc.2.total_hours + d⟩)
    else acc

/-- The filtering and aggregation loop of analyze_calendar over the parsed
VEVENT components, started from the empty meetings list and zeroed
counters. -/
def ics_aggregate (win : Window) (events : List VEvent) : List Meeting × Stats :=
  events.foldl (ics_step win) ([], ⟨0, 0⟩)

/-- All intermediate accumulator states of a left fold, including the
initial one. -/
def foldStates (f : β → α → β) (b : β) : List α → List β
  | [] => [b]
  | a :: l => b :: foldStates f (f b a) l

/-- Aggregation trace of the ICS path: the accumulator before the first
event and after each event. -/
def icsStates (win : Window) (events : List VEvent) :
    List (List Meeting × Stats) :=
  foldStates (ics_step win) ([], ⟨0, 0⟩) events

/-- A row of the CalendarItem table as fetched by the query: summary plus
start and end timestamps in seconds since the Apple epoch. -/
structure SqliteRow where
  summary : Option String
  start_date : Int
  end_date : Int
deriving DecidableEq, Repr

/-- Instant of the Apple calendar epoch 2001-01-01T00:00:00 UTC. -/
def appleEpochInstant : Int := 86400 * daysFromCivil 2001 1 1

/-- Body of the row loop of analyze_sqlite_calendar (lines 209-234):
rebuild aware UTC datetimes from the stored epoch seconds, convert both to
Pacific time, derive the duration from their difference, apply the title
placeholder on a null or empty summary, append the record and bump both
counters. -/
def sqlite_step (acc : List Meeting × Stats) (row : SqliteRow) :
    List Meeting × Stats :=
  let start_dt := convert_to_pacific (.aware (appleEpochInstant + row.start_date) .utc)
  let end_dt := convert_to_pacific (.aware (appleEpochInstant + row.end_date) .utc)
  let d : ℚ := ((instantVal end_dt - instantVal start_dt : Int) : ℚ) / 3600
  let s :=
    match row.summary with
    | none => "No Title"
    | some t => if t = "" then "No Title" else t
  let m : Meeting := ⟨pyDate start_dt, pyTimeOfDay start_dt, s, d⟩
  (acc.1 ++ [m], ⟨acc.2.total_meetings + 1, acc.2.total_hours + d⟩)

/-- Rows returned by the SQL query of analyze_sqlite_calendar (lines
197-204): those whose start_date lies between the window bounds
re-expressed as seconds since the Apple epoch, inclusive on both sides. -/
def fetchedRows (win : Window) (rows : List SqliteRow) : List SqliteRow :=
  let start_seconds := win.startI - appleEpochInstant
  let end_seconds := win.endI - appleEpochInstant
  rows.filter (fun r => decide (start_seconds ≤ r.start_date ∧ r.start_date ≤ end_seconds))

/-- Embeds analyze_sqlite_calendar (lines 179-237) over the table rows of
an opened database: query with the inclusive window, then fold the row
loop from the empty meetings list and zeroed counters. -/
def analyze_sqlite_calendar (win : Window) (rows : List SqliteRow) :
    List Meeting × Stats :=
  (fetchedRows win rows).foldl sqlite_step ([], ⟨0, 0⟩)

/-- Aggregation trace of the SQLite path. -/
def sqliteStates (win : Window) (rows : List SqliteRow) :
    List (List Meeting × Stats) :=
  foldStates sqlite_step ([], ⟨0, 0⟩) (fetchedRows win rows)

/-- A calendar file found during auto-discovery, with its modification
timestamp. -/
structure DiscoveredFile where
  path : String
  mtime : ℚ
deriving DecidableEq, Repr

/-- One comparison step of the builtin max with the st_mtime key: the
running maximum is replaced only when the new key is strictly greater, so
on ties the earlier element is kept. -/
def pyMaxStep (best x : DiscoveredFile) : DiscoveredFile :=
  if best.mtime < x.mtime then x else best

/-- Embeds the auto-discovery arm of get_calendar_path (lines 89-104).
The argument is all_calendar_files: every match found under the searched
directories, in directory-list order then discovery order.  An empty match
list makes the code print an error with export instructions and call
sys.exit(1), modelled as none; otherwise the builtin max selects by
modification time. -/
def get_calendar_path : List DiscoveredFile → Option DiscoveredFile
  | [] => none
  | f :: rest => some (rest.foldl pyMaxStep f)

/-- What an ICS file yields once opened: the parse either succeeds with a
list of VEVENT components or the parsing library raises ValueError with a
message. -/
inductive ICalContent
  | valid (events : List VEvent)
  | malformed (message : String)
deriving Repr

/-- A text-calendar file as the reader sees it: opening either raises
OSError with a message or yields content to parse. -/
inductive ICSFile
  | unreadable (message : String)
  | readable (content : ICalContent)
deriving Repr

/-- Observable outcome of one analyze_calendar run on a text-calendar
path.  exitFatal carries the diagnostic printed before sys.exit(1).
uncaughtParse is an exception no handler catches (the code catches only
OSError), which terminates the process with that message and a nonzero
status; it is a different constructor from exitFatal, so the two failure
modes are distinguishable. -/
inductive RunResult
  | ok (meetings : List Meeting) (stats : Stats)
  | exitFatal (printed : String)
  | uncaughtParse (message : String)
deriving Repr

/-- Embeds analyze_calendar (lines 106-177) on a text-calendar path: an
OSError while opening or reading is caught and reported with the fixed
message before sys.exit(1); a ValueError raised by Calendar.from_ical
propagates uncaught; otherwise the event loop runs to completion. -/
def analyze_calendar (win : Window) (file : ICSFile) : RunResult :=
  match file with
  | .unreadable e => .exitFatal ("Error reading calendar file: " ++ e)
  | .readable (.malformed e) => .uncaughtParse e
  | .readable (.valid events) =>
    let r := ics_aggregate win events
    .ok r.1 r.2

/-- Number of occurrences of a value in a list. -/
def countEq {α : Type} [DecidableEq α] (l : List α) (a : α) : Nat :=
  (l.filter (fun b => decide (b = a))).length

/-- Distinct values of a list in order of first occurrence (helper with an
accumulator of already seen values). -/
def dedupFirstAux {α : Type} [DecidableEq α] (seen : List α) : List α → List α
  | [] => []
  | a :: l => if a ∈ seen then dedupFirstAux seen l else a :: dedupFirstAux (a :: seen) l

/-- Distinct values of a list in order of first occurrence. -/
def dedupFirst {α : Type} [DecidableEq α] (l : List α) : List α :=
  dedupFirstAux [] l

/-- Insertion into a list sorted by descending count, placed before the
first entry with a smaller or equal count. -/
def insertByCount {α : Type} (p : α × Nat) : List (α × Nat) → List (α × Nat)
  | [] => [p]
  | q :: l => if p.2 < q.2 then q :: insertByCount p l else p :: q :: l

/-- Stable sort by descending count. -/
def sortByCountDesc {α : Type} (l : List (α × Nat)) : List (α × Nat) :=
  l.foldr insertByCount []

/-- Models the value_counts tabulation used by generate_summary: distinct
values with their occurrence counts, ordered by descending count.  The
exact order among equal counts is not part of the contract of the
source. -/
def value_counts {α : Type} [DecidableEq α] (l : List α) : List (α × Nat) :=
  sortByCountDesc ((dedupFirst l).map (fun a => (a, countEq l a)))

/-- Two-digit zero padding. -/
def pad2 (n : Nat) : String :=
  if n < 10 then "0" ++ toString n else toString n

/-- Models strftime with the 12-hour format used for the top meeting
times. -/
def fmtTime12 (secs : Int) : String :=
  let s := (Int.emod secs 86400).toNat
  let h24 := s / 3600
  let minute := (s % 3600) / 60
  let h12 := (h24 + 11) % 12 + 1
  let half := if h24 < 12 then "AM" else "PM"
  pad2 h12 ++ ":" ++ pad2 minute ++ " " ++ half

/-- English month names for the long date format. -/
def monthName (m : Int) : String :=
  [ "January", "February", "March", "April", "May", "June", "July",
    "August", "September", "October", "November", "December" ].getD (m - 1).toNat ""

/-- Models strftime with the long date format of the date-range block. -/
def formatLongDate (epochDay : Int) : String :=
  let c := civilFromDays epochDay
  monthName c.month ++ " " ++ pad2 c.day.toNat ++ ", " ++ toString c.year

/-- One-decimal rendering of a rational, approximating the fixed-point
float rendering of the report (rounding half up). -/
def fmt1 (q : ℚ) : String :=
  let n : Int := (q * 10 + 1 / 2).floor
  let sign := if n < 0 then "-" else ""
  sign ++ toString (n.natAbs / 10) ++ "." ++ toString (n.natAbs % 10)

/-- Right-justified four-column count, as rendered for each title line. -/
def padCount (count : Nat) : String :=
  let s := toString count
  String.mk (List.replicate (4 - s.length) ' ') ++ s

/-- Title truncation of generate_summary (lines 296-301): titles longer
than 100 characters are cut to their first 100 characters and get a
trailing ellipsis marker; shorter titles pass through unmodified. -/
def displayTitle (title : String) : String :=
  if 100 < title.length then title.take 100 ++ "..." else title

/-- One line of the top-titles block. -/
def titleLine (count : Nat) (title : String) : String :=
  padCount count ++ " | " ++ displayTitle title

/-- Minimum of a list of integers, zero on the empty list (the formatter
only evaluates it on nonempty data). -/
def listMin : List Int → Int
  | [] => 0
  | x :: xs => xs.foldl min x

/-- Maximum of a list of integers, zero on the empty list. -/
def listMax : List Int → Int
  | [] => 0
  | x :: xs => xs.foldl max x

/-- The average-meeting-duration statistic: total hours divided by the
total meeting count. -/
def avg_meeting_duration (stats : Stats) : ℚ :=
  stats.total_hours / (stats.total_meetings : ℚ)

/-- The initial lines of the nonempty report (lines 266-284 of the
source): header, date range, timezone block, statistics block and the
heading of the top-5 times block.  The now argument is the instant of the
datetime.now call that only feeds the PDT or PST labelling. -/
def headerLines (now : Int) (meetings : List Meeting) (stats : Stats) :
    List String :=
  let avg_meetings_per_day : ℚ := (stats.total_meetings : ℚ) / 365
  let is_dst := isPacificDST now
  let timezone_name := if is_dst then "PDT" else "PST"
  let start_date := listMin (meetings.map Meeting.date)
  let end_date := listMax (meetings.map Meeting.date)
  let date_range_days := end_date - start_date
  [ "📅 Calendar Analysis Summary (All times in Pacific Time - Currently "
      ++ timezone_name ++ ")",
    String.mk (List.replicate 70 '='),
    "\nDate Range:",
    "- From: " ++ formatLongDate start_date,
    "- To:   " ++ formatLongDate end_date,
    "- Span: " ++ toString date_range_days ++ " days",
    "\nTimezone Information:",
    "- Currently using " ++ timezone_name ++ " (Pacific "
      ++ (if is_dst then "Daylight" else "Standard") ++ " Time)",
    "- All times are automatically adjusted for DST transitions",
    "- Meetings during DST periods are shown in PDT",
    "- Meetings during standard time are shown in PST",
    "\nMeeting Statistics:",
    "- Total Meetings: " ++ toString stats.total_meetings,
    "- Total Meeting Hours: " ++ fmt1 stats.total_hours,
    "- Average Meetings per Day: " ++ fmt1 avg_meetings_per_day,
    "- Average Meeting Duration: " ++ fmt1 (avg_meeting_duration stats) ++ " hours",
    "\nTop 5 Most Common Meeting Times (" ++ timezone_name ++ "):" ]

/-- The top-5 most common meeting times block (lines 287-288). -/
def topTimesLines (meetings : List Meeting) : List String :=
  ((value_counts (meetings.map Meeting.time)).take 5).map
    (fun p => "- " ++ fmtTime12 p.1 ++ ": " ++ toString p.2 ++ " meetings")

/-- The heading of the top-titles block (lines 291-294). -/
def titlesHeaderLines (num_titles : Nat) : List String :=
  [ "\nTop " ++ toString num_titles ++ " Most Frequent Meeting Titles:",
    String.mk (List.replicate 30 '-') ]

/-- The top-titles block itself (lines 297-301): one line per selected
title. -/
def topTitlesLines (meetings : List Meeting) (num_titles : Nat) : List String :=
  ((value_counts (meetings.map Meeting.summary)).take num_titles).map
    (fun p => titleLine p.2 p.1)

/-- The lines of the nonempty report of generate_summary (lines 249-303),
in order. -/
def summaryLines (now : Int) (meetings : List Meeting) (stats : Stats)
    (num_titles : Nat) : List String :=
  headerLines now meetings stats ++ topTimesLines meetings
    ++ titlesHeaderLines num_titles ++ topTitlesLines meetings num_titles

/-- Embeds generate_summary (lines 243-303): the fixed message on an empty
meetings list, otherwise the joined report lines. -/
def generate_summary (now : Int) (meetings : List Meeting) (stats : Stats)
    (num_titles : Nat) : String :=
  if meetings.isEmpty then "No meetings found in the specified time period."
  else String.intercalate "\n" (summaryLines now meetings stats num_titles)

/-- Window of one day starting at the Apple epoch, used in the concrete
instances below. -/
def winW : Window := ⟨appleEpochInstant, appleEpochInstant + 86400⟩

/-- Row whose stored end timestamp precedes its start timestamp. -/
def rowNeg : SqliteRow := ⟨some "Backwards", 0, -3600⟩

/-- Well-formed one-hour row. -/
def rowOk : SqliteRow := ⟨some "DB Meeting", 0, 3600⟩

/-- Timed event carrying an explicit two-hour duration. -/
def evDur : VEvent :=
  ⟨.dateTime (.aware appleEpochInstant .utc), none, some "Sync", some (.timedelta 7200)⟩

/-- Timed event with a DTEND but no DURATION property. -/
def evNoDur : VEvent :=
  ⟨.dateTime (.aware appleEpochInstant .utc),
   some (.aware (appleEpochInstant + 7200) .utc), some "Standup", none⟩

/-- A 150-character title. -/
def longTitle : String := String.mk (List.replicate 150 'A')

/-- Concrete meetings list and counters used in the formatter instances. -/
def meetingsW : List Meeting := [⟨19539, 36000, longTitle, 1⟩]

/-- Counters matching meetingsW. -/
def statsW : Stats := ⟨1, 1⟩

/-- Two discovered files with equal modification timestamps. -/
def fileA : DiscoveredFile := ⟨"a.ics", 5⟩

/-- Second discovered file, same timestamp as fileA. -/
def fileB : DiscoveredFile := ⟨"b.ics", 5⟩

/-- Instant of 2023-07-01T17:00:00 UTC, the July instant of the timezone
test of the specification. -/
def julyInstant : Int := 86400 * daysFromCivil 2023 7 1 + 17 * 3600

/-- The meeting record that evDur produces: the Apple epoch instant
displayed in Pacific standard time is 16:00 on 2000-12-31 (epoch day
11322). -/
def meetingEv : Meeting := ⟨11322, 57600, "Sync", 2⟩

/-- Shape shared by both aggregation loop bodies: a step either leaves the
accumulator unchanged or appends exactly one meeting whose duration is
determined by the item, adding that duration to total_hours and one to
total_meetings. -/
def StepSpec {α : Type} (step : List Meeting × Stats → α → List Meeting × Stats)
    (dur : α → ℚ) : Prop :=
  ∀ acc a, step acc a = acc ∨
    ∃ m : Meeting, m.duration_hours = dur a ∧
      step acc a = (acc.1 ++ [m], ⟨acc.2.total_meetings + 1, acc.2.total_hours + dur a⟩)

/-- Duration in hours contributed by one fetched database row. -/
def rowDurationHours (row : SqliteRow) : ℚ :=
  ((row.end_date - row.start_date : Int) : ℚ) / 3600

/-- Comparison of two aggregation states by the meeting counter. -/
def countLe (a b : List Meeting × Stats) : Prop :=
  a.2.total_meetings ≤ b.2.total_meetings

/-- Comparison of two aggregation states by the hours counter. -/
def hoursLe (a b : List Meeting × Stats) : Prop :=
  a.2.total_hours ≤ b.2.total_hours

example : (ics_aggregate winW [evDur]).2 = ⟨1, 2⟩ := by
  norm_num [ics_aggregate, ics_step, eventDurationHours, winW, evDur,
    convert_to_pacific, instantVal]

example : (ics_aggregate winW [evNoDur]).2 = ⟨1, 1⟩ := by
  norm_num [ics_aggregate, ics_step, eventDurationHours, winW, evNoDur,
    convert_to_pacific, instantVal]

example : (analyze_sqlite_calendar winW [rowNeg]).1.map Meeting.duration_hours = [-1] := by
  norm_num [analyze_sqlite_calendar, fetchedRows, sqlite_step, winW, rowNeg,
    convert_to_pacific, instantVal]

example : get_calendar_path [fileA, fileB] = some fileA := by
  norm_num [get_calendar_path, pyMaxStep, fileA, fileB]

example : localHour (convert_to_pacific (.aware julyInstant .utc)) = 10 := by decide

example : daysFromCivil 1970 1 1 = 0 := by decide
example : daysFromCivil 2001 1 1 = 11323 := by decide
example : daysFromCivil 2023 7 1 = 19539 := by decide
example : civilFromDays 19539 = ⟨2023, 7, 1⟩ := by decide
example : civilFromDays 0 = ⟨1970, 1, 1⟩ := by decide
example : dayOfWeek (daysFromCivil 2023 3 1) = 3 := by decide
example : secondSundayOfMarch 2023 = daysFromCivil 2023 3 12 := by decide
example : firstSundayOfNovember 2023 = daysFromCivil 2023 11 5 := by decide
example : isPacificDST (86400 * daysFromCivil 2023 7 1) = true := by decide
example : isPacificDST (86400 * daysFromCivil 2023 1 15) = false := by decide

/-- Sanity: the modelled Apple epoch is the well-known Unix timestamp of
2001-01-01T00:00:00 UTC. -/
theorem appleEpochInstant_eq : appleEpochInstant = 978307200 := by decide

/-- The ICS loop body satisfies the common step shape, with the duration
given by eventDurationHours. -/
theorem ics_step_spec (win : Window) : StepSpec (ics_step win) eventDurationHours := by
  intro acc event
  unfold ics_step
  cases hs : event.dtstart with
  | dateOnly d => exact Or.inl rfl
  | dateTime dtv =>
    dsimp only
    split
    · exact Or.inr ⟨_, rfl, rfl⟩
    · exact Or.inl rfl

/-- The SQLite loop body satisfies the common step shape, with the
duration given by rowDurationHours. -/
theorem sqlite_step_spec : StepSpec sqlite_step rowDurationHours := by
  intro acc row
  have hdur : ((instantVal (convert_to_pacific
        (.aware (appleEpochInstant + row.end_date) .utc))
      - instantVal (convert_to_pacific
        (.aware (appleEpochInstant + row.start_date) .utc)) : Int) : ℚ) / 3600
      = rowDurationHours row := by
    unfold rowDurationHours convert_to_pacific instantVal
    norm_num
  right
  unfold sqlite_step
  dsimp only
  rw [hdur]
  exact ⟨_, rfl, rfl⟩

/-- After a fold of steps of the common shape, total_hours is the sum of
the durations of the accumulated meetings and total_meetings their count,
whenever the starting accumulator already satisfies that invariant. -/
theorem tally_foldl_inv {α : Type}
    {step : List Meeting × Stats → α → List Meeting × Stats} {dur : α → ℚ}
    (hs : StepSpec step dur) :
    ∀ (l : List α) (acc : List Meeting × Stats),
      acc.2.total_hours = (acc.1.map Meeting.duration_hours).sum →
      acc.2.total_meetings = acc.1.length →
      (l.foldl step acc).2.total_hours
          = ((l.foldl step acc).1.map Meeting.duration_hours).sum ∧
      (l.foldl step acc).2.total_meetings = (l.foldl step acc).1.length := by
  intro l
  induction l with
  | nil => intro acc h1 h2; exact ⟨h1, h2⟩
  | cons a l ih =>
    intro acc h1 h2
    rcases hs acc a with h | ⟨m, hm, h⟩
    · rw [List.foldl_cons, h]
      exact ih acc h1 h2
    · rw [List.foldl_cons, h]
      apply ih
      · simp [h1, hm]
      · simp [h2]

/-- Every meeting accumulated by a fold of steps of the common shape has a
duration produced from one of the folded items. -/
theorem tally_mem {α : Type}
    {step : List Meeting × Stats → α → List Meeting × Stats} {dur : α → ℚ}
    (hs : StepSpec step dur) :
    ∀ (l : List α) (acc : List Meeting × Stats) (m : Meeting),
      m ∈ (l.foldl step acc).1 → m ∈ acc.1 ∨ ∃ a ∈ l, m.duration_hours = dur a := by
  intro l
  induction l with
  | nil => intro acc m hm; exact Or.inl hm
  | cons a l ih =>
    intro acc m hm
    rw [List.foldl_cons] at hm
    rcases hs acc a with h | ⟨m0, hm0, h⟩
    · rw [h] at hm
      rcases ih acc m hm with h1 | ⟨b, hb, hd⟩
      · exact Or.inl h1
      · exact Or.inr ⟨b, List.mem_cons_of_mem a hb, hd⟩
    · rw [h] at hm
      rcases ih _ m hm with h1 | ⟨b, hb, hd⟩
      · rcases List.mem_append.mp h1 with h2 | h2
        · exact Or.inl h2
        · have hm0eq : m = m0 := List.mem_singleton.mp h2
          exact Or.inr ⟨a, List.mem_cons_self a l, by rw [hm0eq, hm0]⟩
      · exact Or.inr ⟨b, List.mem_cons_of_mem a hb, hd⟩

/-- The head of a fold-state trace is the initial accumulator. -/
theorem foldStates_head {α β : Type} (f : β → α → β) (b : β) (l : List α) :
    (foldStates f b l).head? = some b := by
  cases l <;> rfl

/-- Along a trace of steps of the common shape, the meeting counter never
decreases. -/
theorem tally_chain_count {α : Type}
    {step : List Meeting × Stats → α → List Meeting × Stats} {dur : α → ℚ}
    (hs : StepSpec step dur) :
    ∀ (l : List α) (acc : List Meeting × Stats),
      List.Chain' countLe (foldStates step acc l) := by
  intro l
  induction l with
  | nil => intro acc; simp [foldStates]
  | cons a l ih =>
    intro acc
    rw [foldStates]
    apply List.chain'_cons'.mpr
    refine ⟨?_, ih (step acc a)⟩
    intro y hy
    rw [foldStates_head, Option.mem_some_iff] at hy
    subst hy
    rcases hs acc a with h | ⟨m, _, h⟩
    · rw [h]
      exact le_refl _
    · rw [h]
      exact Nat.le_succ _

/-- Along a trace of steps of the common shape whose durations are all
non-negative, the hours counter never decreases. -/
theorem tally_chain_hours {α : Type}
    {step : List Meeting × Stats → α → List Meeting × Stats} {dur : α → ℚ}
    (hs : StepSpec step dur) :
    ∀ (l : List α) (acc : List Meeting × Stats), (∀ a ∈ l, 0 ≤ dur a) →
      List.Chain' hoursLe (foldStates step acc l) := by
  intro l
  induction l with
  | nil => intro acc _; simp [foldStates]
  | cons a l ih =>
    intro acc hd
    rw [foldStates]
    apply List.chain'_cons'.mpr
    refine ⟨?_, ih (step acc a) (fun b hb => hd b (List.mem_cons_of_mem a hb))⟩
    intro y hy
    rw [foldStates_head, Option.mem_some_iff] at hy
    subst hy
    rcases hs acc a with h | ⟨m, _, h⟩
    · rw [h]
      exact le_refl _
    · rw [h]
      show acc.2.total_hours ≤ acc.2.total_hours + dur a
      have := hd a (List.mem_cons_self a l)
      linarith

/-- Characterization of the builtin max fold with the st_mtime key: the
result bounds every element and the seed from above, and it is either the
seed itself or the first listed element strictly above the seed and
everything before it. -/
theorem foldl_pyMaxStep_spec :
    ∀ (rest : List DiscoveredFile) (f : DiscoveredFile),
      (∀ g ∈ rest, g.mtime ≤ (rest.foldl pyMaxStep f).mtime) ∧
      f.mtime ≤ (rest.foldl pyMaxStep f).mtime ∧
      (rest.foldl pyMaxStep f = f ∨
        ∃ l1 l2, rest = l1 ++ (rest.foldl pyMaxStep f) :: l2 ∧
          f.mtime < (rest.foldl pyMaxStep f).mtime ∧
          ∀ g ∈ l1, g.mtime < (rest.foldl pyMaxStep f).mtime) := by
  intro rest
  induction rest with
  | nil =>
    intro f
    exact ⟨by simp, le_refl _, Or.inl rfl⟩
  | cons x xs ih =>
    intro f
    rw [List.foldl_cons]
    by_cases hx : f.mtime < x.mtime
    · rw [show pyMaxStep f x = x from if_pos hx]
      obtain ⟨h1, h2, h3⟩ := ih x
      refine ⟨?_, le_of_lt (lt_of_lt_of_le hx h2), ?_⟩
      · intro g hg
        rcases List.mem_cons.mp hg with rfl | hg
        · exact h2
        · exact h1 g hg
      · rcases h3 with he | ⟨l1, l2, hsplit, hlt, hall⟩
        · refine Or.inr ⟨[], xs, ?_, ?_, by simp⟩
          · rw [he]; simp
          · rw [he]; exact hx
        · refine Or.inr ⟨x :: l1, l2, ?_, lt_trans hx hlt, ?_⟩
          · rw [List.cons_append, ← hsplit]
          · intro g hg
            rcases List.mem_cons.mp hg with rfl | hg
            · exact hlt
            · exact hall g hg
    · rw [show pyMaxStep f x = f from if_neg hx]
      obtain ⟨h1, h2, h3⟩ := ih f
      have hxle : x.mtime ≤ f.mtime := le_of_not_lt hx
      refine ⟨?_, h2, ?_⟩
      · intro g hg
        rcases List.mem_cons.mp hg with rfl | hg
        · exact le_trans hxle h2
        · exact h1 g hg
      · rcases h3 with he | ⟨l1, l2, hsplit, hlt, hall⟩
        · exact Or.inl he
        · refine Or.inr ⟨x :: l1, l2, ?_, hlt, ?_⟩
          · rw [List.cons_append, ← hsplit]
          · intro g hg
            rcases List.mem_cons.mp hg with rfl | hg
            · exact lt_of_le_of_lt hxle hlt
            · exact hall g hg

/-- C6: convert_to_pacific maps the instant 17:00 UTC on a July date
(2023-07-01) to exactly 10:00 Pacific local time, the daylight offset,
and on every naive datetime it returns exactly what it returns on the
zone-aware UTC datetime with the same clock value. -/
theorem C6_convert_july_and_naive :
    localHour (convert_to_pacific (.aware julyInstant .utc)) = 10 ∧
    pyTimeOfDay (convert_to_pacific (.aware julyInstant .utc)) = 10 * 3600 ∧
    ∀ clockSec : Int,
      convert_to_pacific (.naive clockSec)
        = convert_to_pacific (.aware clockSec .utc) := by
  exact ⟨by decide, by decide, fun _ => rfl⟩

/-- C10: convert_to_pacific preserves the absolute instant of every
zone-aware datetime (only the displayed zone changes) and is idempotent on
every datetime, naive or zone-aware. -/
theorem C10_convert_idempotent_instant_preserving :
    (∀ (i : Int) (z : Zone), pyInstant (convert_to_pacific (.aware i z)) = some i) ∧
    (∀ dt : PyDateTime,
      convert_to_pacific (convert_to_pacific dt) = convert_to_pacific dt) := by
  refine ⟨fun i z => rfl, fun dt => ?_⟩
  cases dt <;> rfl

/-- C8: analyze_calendar keeps the two failure modes apart: an unreadable
file is caught and terminates through sys.exit(1) after the fixed
diagnostic, while a file that opens but that the parsing library rejects
terminates through its own uncaught parse error; the two outcomes are
distinct for all messages. -/
theorem C8_distinct_failure_modes (win : Window) :
    (∀ e : String, analyze_calendar win (.unreadable e)
        = .exitFatal ("Error reading calendar file: " ++ e)) ∧
    (∀ e : String,
      analyze_calendar win (.readable (.malformed e)) = .uncaughtParse e) ∧
    (∀ e1 e2 : String, RunResult.exitFatal e1 ≠ RunResult.uncaughtParse e2) := by
  refine ⟨fun e => rfl, fun e => rfl, fun e1 e2 h => RunResult.noConfusion h⟩

/-- C9: generate_summary returns exactly the fixed message on an empty
meetings list, and whenever the counters agree with a nonempty meetings
list the denominator of the average-meeting-duration division is strictly
positive, so the division inverts multiplication by it. -/
theorem C9_empty_report_and_average (now : Int) (stats : Stats) (num_titles : Nat) :
    generate_summary now [] stats num_titles
        = "No meetings found in the specified time period." ∧
    (∀ (meetings : List Meeting) (st : Stats), meetings ≠ [] →
      st.total_meetings = meetings.length →
      0 < st.total_meetings ∧
      avg_meeting_duration st * (st.total_meetings : ℚ) = st.total_hours) := by
  refine ⟨rfl, fun meetings st hne hlen => ?_⟩
  have hpos : 0 < st.total_meetings := by
    rw [hlen]
    exact List.length_pos.mpr hne
  refine ⟨hpos, ?_⟩
  unfold avg_meeting_duration
  exact div_mul_cancel₀ _ (by exact_mod_cast hpos.ne')

/-- Witness for C9 at a concrete nonempty meetings list and its
counters. -/
theorem C9_witness :
    generate_summary 0 [] statsW 5
        = "No meetings found in the specified time period." ∧
    0 < statsW.total_meetings ∧
    avg_meeting_duration statsW * (statsW.total_meetings : ℚ) = statsW.total_hours := by
  have h := C9_empty_report_and_average 0 statsW 5
  exact ⟨h.1, h.2 meetingsW statsW (by simp [meetingsW]) (by simp [meetingsW, statsW])⟩

/-- Counterexample to C4 as stated: two discovered files share the
maximal modification timestamp and auto-discovery returns the FIRST one
found, not the last one, because the builtin max only replaces its
running value on a strictly greater key. -/
theorem C4_counterexample :
    get_calendar_path [fileA, fileB] = some fileA ∧
    get_calendar_path [fileA, fileB] ≠ some fileB ∧
    fileA.mtime = fileB.mtime := by
  have h : get_calendar_path [fileA, fileB] = some fileA := by
    norm_num [get_calendar_path, pyMaxStep, fileA, fileB]
  refine ⟨h, ?_, rfl⟩
  rw [h]
  intro hcontra
  have : fileA = fileB := Option.some.inj hcontra
  simp [fileA, fileB] at this

/-- C4 (amended): with zero matches the run fails fatally before any
report; otherwise auto-discovery returns a file with the most recent
modification timestamp among all matches, and when several matches share
the maximal timestamp the FIRST one found under the iteration order wins:
the result splits the match list so that everything before it is strictly
older. -/
theorem C4_latest_mtime_first_on_ties (files : List DiscoveredFile) :
    (files = [] → get_calendar_path files = none) ∧
    (∀ m, get_calendar_path files = some m →
      m ∈ files ∧ (∀ g ∈ files, g.mtime ≤ m.mtime) ∧
      ∃ l1 l2, files = l1 ++ m :: l2 ∧ ∀ g ∈ l1, g.mtime < m.mtime) := by
  constructor
  · intro h
    rw [h]
    rfl
  · intro m hm
    cases files with
    | nil => exact absurd hm (by simp [get_calendar_path])
    | cons f rest =>
      have hm2 : rest.foldl pyMaxStep f = m := Option.some.inj hm
      obtain ⟨h1, h2, h3⟩ := foldl_pyMaxStep_spec rest f
      rw [hm2] at h1 h2 h3
      refine ⟨?_, ?_, ?_⟩
      · rcases h3 with heq | ⟨l1, l2, hsplit, _, _⟩
        · rw [heq]
          exact List.mem_cons_self f rest
        · rw [hsplit]
          exact List.mem_cons_of_mem f (by simp)
      · intro g hg
        rcases List.mem_cons.mp hg with rfl | hg
        · exact h2
        · exact h1 g hg
      · rcases h3 with heq | ⟨l1, l2, hsplit, hlt, hall⟩
        · refine ⟨[], rest, ?_, by simp⟩
          rw [heq]
          simp
        · refine ⟨f :: l1, l2, ?_, ?_⟩
          · rw [List.cons_append, ← hsplit]
          · intro g hg
            rcases List.mem_cons.mp hg with rfl | hg
            · exact hlt
            · exact hall g hg

/-- Witness for the amended C4 at a concrete two-element match list. -/
theorem C4_witness : fileA ∈ [fileA, fileB] :=
  (((C4_latest_mtime_first_on_ties [fileA, fileB]).2 fileA
    (by norm_num [get_calendar_path, pyMaxStep, fileA, fileB]))).1

/-- Counterexample to C1 as stated: on this one-row database, whose
stored end precedes its start, the hours counter decreases during
aggregation (its trace is 0 then -1), so the counters are not
non-decreasing. -/
theorem C1_counterexample :
    (sqliteStates winW [rowNeg]).map (fun p => p.2.total_hours) = [0, -1] ∧
    ¬ List.Chain' hoursLe (sqliteStates winW [rowNeg]) := by
  have hfetch : fetchedRows winW [rowNeg] = [rowNeg] := by
    norm_num [fetchedRows, winW, rowNeg, List.filter]
  constructor
  · rw [sqliteStates, hfetch]
    norm_num [foldStates, sqlite_step, convert_to_pacific, instantVal, rowNeg]
  · rw [sqliteStates, hfetch]
    norm_num [foldStates, sqlite_step, convert_to_pacific, instantVal, rowNeg,
      List.chain'_cons, List.chain'_singleton, hoursLe]

/-- C1 (amended): in both reader paths the returned stats satisfy
total_hours equal to the sum of duration_hours over the returned meetings
and total_meetings equal to their number; both counters start at zero;
the meeting counter is non-decreasing during aggregation; and the hours
counter is non-decreasing during aggregation provided every processed
duration is non-negative (equivalently, for the SQLite path, every row
stores an end timestamp at or after its start). -/
theorem C1_totals_invariant (win : Window) (events : List VEvent)
    (rows : List SqliteRow) :
    (ics_aggregate win events).2.total_hours
        = ((ics_aggregate win events).1.map Meeting.duration_hours).sum ∧
    (ics_aggregate win events).2.total_meetings
        = (ics_aggregate win events).1.length ∧
    (analyze_sqlite_calendar win rows).2.total_hours
        = ((analyze_sqlite_calendar win rows).1.map Meeting.duration_hours).sum ∧
    (analyze_sqlite_calendar win rows).2.total_meetings
        = (analyze_sqlite_calendar win rows).1.length ∧
    (icsStates win events).head? = some ([], ⟨0, 0⟩) ∧
    (sqliteStates win rows).head? = some ([], ⟨0, 0⟩) ∧
    List.Chain' countLe (icsStates win events) ∧
    List.Chain' countLe (sqliteStates win rows) ∧
    ((∀ e ∈ events, 0 ≤ eventDurationHours e) →
      List.Chain' hoursLe (icsStates win events)) ∧
    ((∀ r ∈ rows, r.start_date ≤ r.end_date) →
      List.Chain' hoursLe (sqliteStates win rows)) := by
  obtain ⟨hi1, hi2⟩ :=
    tally_foldl_inv (ics_step_spec win) events ([], ⟨0, 0⟩) rfl rfl
  obtain ⟨hs1, hs2⟩ :=
    tally_foldl_inv sqlite_step_spec (fetchedRows win rows) ([], ⟨0, 0⟩) rfl rfl
  refine ⟨hi1, hi2, hs1, hs2, foldStates_head _ _ _, foldStates_head _ _ _,
    tally_chain_count (ics_step_spec win) events _,
    tally_chain_count sqlite_step_spec (fetchedRows win rows) _,
    fun hd => tally_chain_hours (ics_step_spec win) events _ hd,
    fun hd => tally_chain_hours sqlite_step_spec (fetchedRows win rows) _ ?_⟩
  intro r hr
  have hge := hd r (List.mem_of_mem_filter hr)
  unfold rowDurationHours
  apply div_nonneg _ (by norm_num)
  exact_mod_cast sub_nonneg.mpr hge

/-- Witness for the amended C1: the hours chains at concrete inputs with
non-negative durations. -/
theorem C1_witness :
    List.Chain' hoursLe (icsStates winW [evDur]) ∧
    List.Chain' hoursLe (sqliteStates winW [rowOk]) := by
  have h := C1_totals_invariant winW [evDur] [rowOk]
  refine ⟨h.2.2.2.2.2.2.2.2.1 ?_, h.2.2.2.2.2.2.2.2.2 ?_⟩
  · intro e he
    rw [List.mem_singleton] at he
    subst he
    norm_num [eventDurationHours, evDur]
  · intro r hr
    rw [List.mem_singleton] at hr
    subst hr
    norm_num [rowOk]

/-- Counterexample to C5 as stated: the SQLite path produces a meeting
record with strictly negative duration_hours from a row whose stored end
timestamp precedes its start timestamp. -/
theorem C5_counterexample :
    (analyze_sqlite_calendar winW [rowNeg]).1.map Meeting.duration_hours = [-1] ∧
    ¬ (0 : ℚ) ≤ -1 := by
  constructor
  · norm_num [analyze_sqlite_calendar, fetchedRows, sqlite_step, winW, rowNeg,
      convert_to_pacific, instantVal, List.filter]
  · norm_num

/-- C5 (amended): every meeting record produced by either reader path has
non-negative duration_hours, provided every explicit ICS duration
interval is non-negative and every database row stores an end timestamp
at or after its start timestamp. -/
theorem C5_nonneg_durations (win : Window) (events : List VEvent)
    (rows : List SqliteRow)
    (hev : ∀ e ∈ events, ∀ s : ℚ, e.duration = some (.timedelta s) → 0 ≤ s)
    (hrow : ∀ r ∈ rows, r.start_date ≤ r.end_date) :
    (∀ m ∈ (ics_aggregate win events).1, 0 ≤ m.duration_hours) ∧
    (∀ m ∈ (analyze_sqlite_calendar win rows).1, 0 ≤ m.duration_hours) := by
  constructor
  · intro m hm
    rcases tally_mem (ics_step_spec win) events ([], ⟨0, 0⟩) m hm with h | ⟨e, he, hd⟩
    · simp at h
    · rw [hd]
      unfold eventDurationHours
      cases hdur : e.duration with
      | none => norm_num
      | some d =>
        cases d with
        | timedelta s => exact div_nonneg (hev e he s hdur) (by norm_num)
        | nonTimedelta => norm_num
  · intro m hm
    rcases tally_mem sqlite_step_spec (fetchedRows win rows) ([], ⟨0, 0⟩) m hm
      with h | ⟨r, hr, hd⟩
    · simp at h
    · rw [hd]
      unfold rowDurationHours
      apply div_nonneg _ (by norm_num)
      exact_mod_cast sub_nonneg.mpr (hrow r (List.mem_of_mem_filter hr))

/-- Witness for the amended C5: a concrete meeting produced by the ICS
path has non-negative duration. -/
theorem C5_witness :
    meetingEv ∈ (ics_aggregate winW [evDur]).1 ∧ 0 ≤ meetingEv.duration_hours := by
  have hdate : pyDate (PyDateTime.aware appleEpochInstant Zone.pacific) = 11322 := by
    decide
  have htime : pyTimeOfDay (PyDateTime.aware appleEpochInstant Zone.pacific) = 57600 := by
    decide
  have hlist : (ics_aggregate winW [evDur]).1 = [meetingEv] := by
    norm_num [ics_aggregate, ics_step, eventDurationHours, winW, evDur,
      convert_to_pacific, instantVal, meetingEv, hdate, htime]
  have hmem : meetingEv ∈ (ics_aggregate winW [evDur]).1 := by
    rw [hlist]
    exact List.mem_singleton.mpr rfl
  refine ⟨hmem, (C5_nonneg_durations winW [evDur] [] ?_ (by simp)).1 meetingEv hmem⟩
  intro e he s hs
  rw [List.mem_singleton] at he
  subst he
  simp only [evDur, Option.some.injEq] at hs
  cases hs
  norm_num

/-- C2: with a well-formed window, date filtering is inclusive at both
boundaries in both reader paths: a timed event whose Pacific-normalized
start instant equals either bound is kept, and one strictly before the
start or strictly after the end is dropped; likewise for a database row
and its stored start instant. -/
theorem C2_window_inclusive_boundaries (win : Window) (hwin : win.startI ≤ win.endI)
    (e : VEvent) (dtv : PyDateTime) (he : e.dtstart = .dateTime dtv)
    (r : SqliteRow) :
    ((instantVal (convert_to_pacific dtv) = win.startI ∨
        instantVal (convert_to_pacific dtv) = win.endI) →
      (ics_aggregate win [e]).1.length = 1) ∧
    ((instantVal (convert_to_pacific dtv) < win.startI ∨
        win.endI < instantVal (convert_to_pacific dtv)) →
      (ics_aggregate win [e]).1.length = 0) ∧
    ((appleEpochInstant + r.start_date = win.startI ∨
        appleEpochInstant + r.start_date = win.endI) →
      (analyze_sqlite_calendar win [r]).1.length = 1) ∧
    ((appleEpochInstant + r.start_date < win.startI ∨
        win.endI < appleEpochInstant + r.start_date) →
      (analyze_sqlite_calendar win [r]).1.length = 0) := by
  refine ⟨?_, ?_, ?_, ?_⟩
  · intro hb
    have hcond : win.startI ≤ instantVal (convert_to_pacific dtv) ∧
        instantVal (convert_to_pacific dtv) ≤ win.endI := by
      rcases hb with h | h <;> omega
    show (ics_step win ([], ⟨0, 0⟩) e).1.length = 1
    unfold ics_step
    rw [he]
    dsimp only
    rw [if_pos hcond]
    simp
  · intro hb
    have hcond : ¬ (win.startI ≤ instantVal (convert_to_pacific dtv) ∧
        instantVal (convert_to_pacific dtv) ≤ win.endI) := by
      rcases hb with h | h <;> omega
    show (ics_step win ([], ⟨0, 0⟩) e).1.length = 0
    unfold ics_step
    rw [he]
    dsimp only
    rw [if_neg hcond]
    rfl
  · intro hb
    have hp : decide (win.startI - appleEpochInstant ≤ r.start_date ∧
        r.start_date ≤ win.endI - appleEpochInstant) = true := by
      rw [decide_eq_true_eq]
      omega
    have hfetch : fetchedRows win [r] = [r] := by
      unfold fetchedRows
      dsimp only
      rw [List.filter_cons, hp]
      simp
    show ((fetchedRows win [r]).foldl sqlite_step ([], ⟨0, 0⟩)).1.length = 1
    rw [hfetch]
    simp [sqlite_step]
  · intro hb
    have hp : decide (win.startI - appleEpochInstant ≤ r.start_date ∧
        r.start_date ≤ win.endI - appleEpochInstant) = false := by
      rw [decide_eq_false_iff_not]
      omega
    have hfetch : fetchedRows win [r] = [] := by
      unfold fetchedRows
      dsimp only
      rw [List.filter_cons, hp]
      simp
    show ((fetchedRows win [r]).foldl sqlite_step ([], ⟨0, 0⟩)).1.length = 0
    rw [hfetch]
    rfl

/-- Witness for C2: events exactly at the start boundary of a concrete
window are kept by both paths. -/
theorem C2_witness :
    (ics_aggregate winW [evDur]).1.length = 1 ∧
    (analyze_sqlite_calendar winW [rowOk]).1.length = 1 := by
  have h := C2_window_inclusive_boundaries winW
    (by norm_num [winW]) evDur (.aware appleEpochInstant .utc) rfl rowOk
  exact ⟨h.1 (Or.inl rfl), h.2.2.1 (Or.inl (by norm_num [winW, rowOk]))⟩

/-- C3: an in-window timed event of the ICS path contributes exactly its
explicit duration interval converted to hours when the DURATION property
parses to a time interval, and exactly 1.0 hours when it carries no
duration property, even if a DTEND is present. -/
theorem C3_explicit_duration_and_default (win : Window) (e : VEvent)
    (dtv : PyDateTime) (he : e.dtstart = .dateTime dtv)
    (hin : win.startI ≤ instantVal (convert_to_pacific dtv) ∧
      instantVal (convert_to_pacific dtv) ≤ win.endI) :
    (∀ s : ℚ, e.duration = some (.timedelta s) →
      (ics_aggregate win [e]).1.map Meeting.duration_hours = [s / 3600]) ∧
    (e.duration = none →
      (ics_aggregate win [e]).1.map Meeting.duration_hours = [1]) := by
  have hstep : (ics_aggregate win [e]).1.map Meeting.duration_hours
      = [eventDurationHours e] := by
    show ((ics_step win ([], ⟨0, 0⟩) e).1.map Meeting.duration_hours) = _
    unfold ics_step
    rw [he]
    dsimp only
    rw [if_pos hin]
    simp
  constructor
  · intro s hs
    rw [hstep]
    unfold eventDurationHours
    rw [hs]
  · intro hs
    rw [hstep]
    unfold eventDurationHours
    rw [hs]
    norm_num

/-- Witness for C3: an explicit two-hour event and an event with a DTEND
but no duration property, both in window. -/
theorem C3_witness :
    (ics_aggregate winW [evDur]).1.map Meeting.duration_hours = [7200 / 3600] ∧
    (ics_aggregate winW [evNoDur]).1.map Meeting.duration_hours = [1] := by
  constructor
  · exact (C3_explicit_duration_and_default winW evDur (.aware appleEpochInstant .utc)
      rfl (by norm_num [winW, convert_to_pacific, instantVal])).1 7200 rfl
  · exact (C3_explicit_duration_and_default winW evNoDur (.aware appleEpochInstant .utc)
      rfl (by norm_num [winW, convert_to_pacific, instantVal])).2 rfl

/-- C7: every title selected for the top-titles block of the report is
displayed on its line as exactly its first 100 characters followed by the
ellipsis marker when it is strictly longer than 100 characters, and
unmodified when it is at most 100 characters long. -/
theorem C7_title_truncation (now : Int) (meetings : List Meeting) (stats : Stats)
    (num_titles : Nat) (t : String) (c : Nat)
    (h : (t, c) ∈ (value_counts (meetings.map Meeting.summary)).take num_titles) :
    (100 < t.length →
      padCount c ++ " | " ++ (t.take 100 ++ "...")
        ∈ summaryLines now meetings stats num_titles) ∧
    (t.length ≤ 100 →
      padCount c ++ " | " ++ t ∈ summaryLines now meetings stats num_titles) := by
  have hmem : titleLine c t ∈ topTitlesLines meetings num_titles := by
    unfold topTitlesLines
    exact List.mem_map.mpr ⟨(t, c), h, rfl⟩
  have hline : titleLine c t ∈ summaryLines now meetings stats num_titles := by
    unfold summaryLines
    exact List.mem_append_right _ hmem
  constructor
  · intro hlong
    have heq : titleLine c t = padCount c ++ " | " ++ (t.take 100 ++ "...") := by
      unfold titleLine displayTitle
      rw [if_pos hlong]
    rw [heq] at hline
    exact hline
  · intro hshort
    have heq : titleLine c t = padCount c ++ " | " ++ t := by
      unfold titleLine displayTitle
      rw [if_neg (not_lt.mpr hshort)]
    rw [heq] at hline
    exact hline

set_option maxRecDepth 10000 in
/-- Witness for C7: a concrete report over one meeting with a
150-character title contains the truncated line. -/
theorem C7_witness :
    100 < longTitle.length ∧
    padCount 1 ++ " | " ++ (longTitle.take 100 ++ "...")
      ∈ summaryLines 0 meetingsW statsW 5 := by
  have hsel : (longTitle, 1)
      ∈ (value_counts (meetingsW.map Meeting.summary)).take 5 := by
    decide
  exact ⟨by decide,
    (C7_title_truncation 0 meetingsW statsW 5 longTitle 1 hsel).1 (by decide)⟩

end CalendarAnalyzer
